import Mathlib

/-
Verification of the battery simulation engine in battery-sim/src/main.rs.

Modelling choices:
- All f32 quantities are embedded as exact rationals (ℚ); timestamps are
  modelled as rational seconds, so `TimeDelta::minutes(1)` is `60` and
  `as_seconds_f32() / 3600.0` is division by `3600`.
- Rust panics are modelled by `Option`: `none` is a panic.  The two panic
  sources of `run_battery_sim` are the initial `&data_to_go[0]` index on an
  empty slice and `f32::clamp`, which panics when `min > max` (or when a
  bound is NaN; NaN cannot arise in the rational embedding, so the one place
  where it matters — `efficiency = 0`, where IEEE evaluates `0.0 / 0.0` to
  NaN — is analysed separately with the `F` value type below).
- `rayon::par_sort_unstable_by_key` is third-party code; it is modelled
  relationally by its contract (a sorted permutation, with no stability
  guarantee), see `seriesPrepare`.
-/

/-- Mirrors `struct ElectricityData` (battery-sim/src/main.rs:323).  The
`voltages` / `active_powers_*` arrays (`[f32; 3]` in the source) are carried
but unused by the simulation math. -/
structure ElectricityData where
  time : ℚ
  kwh_import_total_tarif_low : ℚ
  kwh_import_total_tarif_high : ℚ
  kwh_export_total_tarif_low : ℚ
  kwh_export_total_tarif_high : ℚ
  voltages : List ℚ
  active_powers_import : List ℚ
  active_powers_export : List ℚ
deriving DecidableEq

/-- kwh balance, positive for import, negative for export
(battery-sim/src/main.rs:339). -/
def ElectricityData.kwh_balance (d : ElectricityData) : ℚ :=
  d.kwh_import_total_tarif_low + d.kwh_import_total_tarif_high
    - d.kwh_export_total_tarif_high - d.kwh_export_total_tarif_low

/-- Mirrors `struct Battery` (battery-sim/src/main.rs:346). -/
structure Battery where
  stored : ℚ
  capacity : ℚ
  max_charging_rate : ℚ
  max_discharging_rate : ℚ
  efficiency : ℚ
deriving DecidableEq

/-- Mirrors `struct Report` (battery-sim/src/main.rs:408). -/
structure Report where
  total_import : ℚ
  total_export : ℚ
deriving DecidableEq

/-- Mirrors `enum Strategy` (battery-sim/src/main.rs:454). -/
inductive Strategy where
  | netZero
deriving DecidableEq

/-- Mirrors `Strategy::charge_goal` (battery-sim/src/main.rs:462): for
`NetZero`, the negated change of the kwh balance over the period. -/
def Strategy.charge_goal (s : Strategy)
    (previous_situation current_situation : ElectricityData) : ℚ :=
  match s with
  | .netZero =>
    -(current_situation.kwh_balance - previous_situation.kwh_balance)

/-- Rust's `f32::clamp` on rationals: `if self < min { min } else if
self > max { max } else { self }`, and a panic (`none`) when `min > max`.
(The NaN panic cases cannot arise over ℚ; they are modelled separately by
`rustClampF`.) -/
def rustClamp (x lo hi : ℚ) : Option ℚ :=
  if lo ≤ hi then some (if x < lo then lo else if hi < x then hi else x)
  else none

/-- Mirrors the scan
`data_to_go.iter().enumerate().find(|(_, data)| data.time >= prev.time + 1min)`
(battery-sim/src/main.rs:371): the first index-and-element whose time is at
or after the threshold `t`. -/
def findStep (t : ℚ) : List ElectricityData → Option (ℕ × ElectricityData)
  | [] => none
  | d :: rest =>
    if t ≤ d.time then some (0, d)
    else (findStep t rest).map (fun p => (p.1 + 1, p.2))

/-- The two-stage clamp of one simulation step
(battery-sim/src/main.rs:379-387): the strategy's goal is clamped to the
rate bounds over the elapsed time, then to the capacity bounds.  `none` is
a clamp panic. -/
def stepClamp (b : Battery) (s : Strategy) (prev curr : ElectricityData) :
    Option ℚ :=
  let charging_goal := s.charge_goal prev curr
  let timediff_h := (curr.time - prev.time) / 3600
  (rustClamp charging_goal (-b.max_discharging_rate * timediff_h)
      (b.max_charging_rate * timediff_h)).bind fun c =>
    rustClamp c (-b.stored / b.efficiency)
      ((b.capacity - b.stored) / b.efficiency)

/-- The branch condition of the accumulation step
(battery-sim/src/main.rs:394): `true` means the `total_import` branch is
taken, `false` the `total_export` branch. -/
def accumulateBranch (simmed_change_in_period : ℚ) : Bool :=
  decide (simmed_change_in_period > 0)

/-- The accumulation step (battery-sim/src/main.rs:394-398): a positive
simulated change is added to `total_import`, otherwise its negation is
added to `total_export`. -/
def accumulate (report : Report) (simmed_change_in_period : ℚ) : Report :=
  if simmed_change_in_period > 0 then
    { report with total_import := report.total_import + simmed_change_in_period }
  else
    { report with total_export := report.total_export - simmed_change_in_period }

/-- The `while let` loop of `run_battery_sim`
(battery-sim/src/main.rs:371-402).  The Rust loop maintains
`prev = data_to_go[0]` (initially by construction, afterwards because
`data_to_go = &data_to_go[i..]` makes `curr` the new head), and the head
never satisfies the find predicate (`prev.time + 60 ≤ prev.time` is false),
so the source's scan over the full slice equals a scan over the tail with
the found index shifted by one (`findStep_cons_self` below); the slice
re-slicing `&data_to_go[i..]` is `List.drop j rest`. -/
def simLoop (b : Battery) (s : Strategy) (report : Report) :
    List ElectricityData → Option Report
  | [] => some report
  | prev :: rest =>
    match findStep (prev.time + 60) rest with
    | none => some report
    | some (j, curr) =>
      match stepClamp b s prev curr with
      | none => none
      | some clamped_charging =>
        simLoop
          { b with stored := b.stored + clamped_charging * b.efficiency } s
          (accumulate report
            (curr.kwh_balance - prev.kwh_balance + clamped_charging))
          (List.drop j rest)
termination_by l => l.length
decreasing_by simp [List.length_drop]; omega

/-- Mirrors `run_battery_sim` (battery-sim/src/main.rs:359): the report
accumulators start at zero; `let mut prev = &data_to_go[0]` panics (`none`)
on an empty slice. -/
def run_battery_sim (b : Battery) (s : Strategy)
    (data_to_go : List ElectricityData) : Option Report :=
  match data_to_go with
  | [] => none
  | _ :: _ => simLoop b s { total_import := 0, total_export := 0 } data_to_go

/-- Trace of the simulation loop: for each executed step, the battery right
after the mutation `battery.stored += clamped_charging * battery.efficiency`
(battery-sim/src/main.rs:389) together with that step's
`real_change_in_period` and `clamped_charging` (battery-sim/src/main.rs:391-392).
The trace stops where the loop stops (or panics). -/
def simHist (b : Battery) (s : Strategy) :
    List ElectricityData → List (Battery × ℚ × ℚ)
  | [] => []
  | prev :: rest =>
    match findStep (prev.time + 60) rest with
    | none => []
    | some (j, curr) =>
      match stepClamp b s prev curr with
      | none => []
      | some clamped_charging =>
        ({ b with stored := b.stored + clamped_charging * b.efficiency },
            curr.kwh_balance - prev.kwh_balance, clamped_charging) ::
          simHist
            { b with stored := b.stored + clamped_charging * b.efficiency } s
            (List.drop j rest)
termination_by l => l.length
decreasing_by simp [List.length_drop]; omega

/-- Modelled from the spec for the baseline-identity claim: the totals
obtained by accumulating the raw series' `kwh_balance` deltas at 1-minute
resampling granularity, with no battery effect. -/
def rawTotals (report : Report) : List ElectricityData → Report
  | [] => report
  | prev :: rest =>
    match findStep (prev.time + 60) rest with
    | none => report
    | some (j, curr) =>
      rawTotals (accumulate report (curr.kwh_balance - prev.kwh_balance))
        (List.drop j rest)
termination_by l => l.length
decreasing_by simp [List.length_drop]; omega

/-- Mirrors `loaded_data.is_sorted_by_key(|data| data.time)`
(battery-sim/src/main.rs:78): every adjacent pair is non-decreasing in time. -/
def sortedByTime : List ElectricityData → Bool
  | [] => true
  | [_] => true
  | a :: b :: rest => decide (a.time ≤ b.time) && sortedByTime (b :: rest)

/-- The series-preparation step of `main` (battery-sim/src/main.rs:77-82):
if the data is already sorted by time it is left untouched, otherwise it is
sorted with `rayon::par_sort_unstable_by_key`.  The third-party unstable
sort is modelled relationally by its contract: the output is a permutation
of the input ordered by the key, with no stability guarantee. -/
def seriesPrepare (input output : List ElectricityData) : Prop :=
  if sortedByTime input then output = input
  else input.Perm output ∧ sortedByTime output

/-- IEEE-754-style value for the f32 edge cases that the rational embedding
cannot represent: finite values, the two infinities and NaN. -/
inductive F where
  | finite (q : ℚ)
  | posInf
  | negInf
  | nan
deriving DecidableEq

/-- IEEE negation on `F` (signed zero is not tracked; it does not affect
the properties proved here, since dividing any zero by zero is NaN). -/
def fneg : F → F
  | .finite q => .finite (-q)
  | .posInf => .negInf
  | .negInf => .posInf
  | .nan => .nan

/-- IEEE subtraction on `F`. -/
def fsub : F → F → F
  | .nan, _ => .nan
  | _, .nan => .nan
  | .finite x, .finite y => .finite (x - y)
  | .finite _, .posInf => .negInf
  | .finite _, .negInf => .posInf
  | .posInf, .finite _ => .posInf
  | .posInf, .posInf => .nan
  | .posInf, .negInf => .posInf
  | .negInf, .finite _ => .negInf
  | .negInf, .posInf => .negInf
  | .negInf, .negInf => .nan

/-- IEEE division on `F`: dividing a nonzero finite value by zero gives a
signed infinity, and `0 / 0` gives NaN. -/
def fdiv : F → F → F
  | .nan, _ => .nan
  | _, .nan => .nan
  | .finite x, .finite y =>
    if y ≠ 0 then .finite (x / y)
    else if x = 0 then .nan
    else if 0 < x then .posInf
    else .negInf
  | .finite _, .posInf => .finite 0
  | .finite _, .negInf => .finite 0
  | .posInf, .finite y => if y < 0 then .negInf else .posInf
  | .negInf, .finite y => if y < 0 then .posInf else .negInf
  | .posInf, .posInf => .nan
  | .posInf, .negInf => .nan
  | .negInf, .posInf => .nan
  | .negInf, .negInf => .nan

/-- IEEE `≤` on `F`: any comparison with NaN is false. -/
def fle : F → F → Bool
  | .nan, _ => false
  | _, .nan => false
  | .finite x, .finite y => decide (x ≤ y)
  | .negInf, _ => true
  | _, .posInf => true
  | .posInf, _ => false
  | .finite _, .negInf => false

/-- IEEE `<` on `F`: any comparison with NaN is false. -/
def flt : F → F → Bool
  | .nan, _ => false
  | _, .nan => false
  | .finite x, .finite y => decide (x < y)
  | .negInf, .negInf => false
  | .negInf, _ => true
  | _, .posInf => true
  | .posInf, _ => false
  | .finite _, .negInf => false

/-- Rust's `f32::clamp` on `F`: it asserts `min <= max`, which fails — a
panic, `none` — when `min > max` or when either bound is NaN (IEEE
comparisons with NaN are false). -/
def rustClampF (x lo hi : F) : Option F :=
  if fle lo hi then some (if flt x lo then lo else if flt hi x then hi else x)
  else none

/-- The capacity clamp of battery-sim/src/main.rs:384-387 evaluated with
IEEE f32 edge semantics:
`clamp(-stored / efficiency, (capacity - stored) / efficiency)`. -/
def capClampF (stored capacity efficiency x : F) : Option F :=
  rustClampF x (fdiv (fneg stored) efficiency)
    (fdiv (fsub capacity stored) efficiency)

/-- Concrete reading at time 0 with kwh balance 10 (used by witnesses). -/
def dW0 : ElectricityData :=
  { time := 0
    kwh_import_total_tarif_low := 10
    kwh_import_total_tarif_high := 0
    kwh_export_total_tarif_low := 0
    kwh_export_total_tarif_high := 0
    voltages := []
    active_powers_import := []
    active_powers_export := [] }

/-- Concrete reading at time 60 with kwh balance 21/2 (used by witnesses). -/
def dW1 : ElectricityData :=
  { time := 60
    kwh_import_total_tarif_low := 21/2
    kwh_import_total_tarif_high := 0
    kwh_export_total_tarif_low := 0
    kwh_export_total_tarif_high := 0
    voltages := []
    active_powers_import := []
    active_powers_export := [] }

/-- Concrete battery configuration (used by witnesses): empty 1 kWh battery
with 60 kW rates and efficiency 1. -/
def batW : Battery :=
  { stored := 0
    capacity := 1
    max_charging_rate := 60
    max_discharging_rate := 60
    efficiency := 1 }

/-- Concrete reading at time 1 (first of a timestamp tie). -/
def eA : ElectricityData :=
  { time := 1
    kwh_import_total_tarif_low := 1
    kwh_import_total_tarif_high := 0
    kwh_export_total_tarif_low := 0
    kwh_export_total_tarif_high := 0
    voltages := []
    active_powers_import := []
    active_powers_export := [] }

/-- Concrete reading at time 1 (second of a timestamp tie, distinct from
`eA`). -/
def eB : ElectricityData :=
  { time := 1
    kwh_import_total_tarif_low := 2
    kwh_import_total_tarif_high := 0
    kwh_export_total_tarif_low := 0
    kwh_export_total_tarif_high := 0
    voltages := []
    active_powers_import := []
    active_powers_export := [] }

/-- Concrete reading at time 0. -/
def eC : ElectricityData :=
  { time := 0
    kwh_import_total_tarif_low := 0
    kwh_import_total_tarif_high := 0
    kwh_export_total_tarif_low := 0
    kwh_export_total_tarif_high := 0
    voltages := []
    active_powers_import := []
    active_powers_export := [] }

theorem rustClamp_bounds {x lo hi r : ℚ} (h : rustClamp x lo hi = some r) :
    lo ≤ r ∧ r ≤ hi := by
  unfold rustClamp at h
  split at h
  · rename_i hlh
    rw [Option.some.injEq] at h
    subst h
    split_ifs with h1 h2
    · exact ⟨le_refl _, hlh⟩
    · exact ⟨hlh, le_refl _⟩
    · exact ⟨not_lt.mp h1, not_lt.mp h2⟩
  · exact absurd h (by simp)

theorem rustClamp_zero (x : ℚ) : rustClamp x 0 0 = some 0 := by
  unfold rustClamp
  rw [if_pos (le_refl 0)]
  split_ifs with h1 h2
  · rfl
  · rfl
  · exact congrArg some (le_antisymm (not_lt.mp h2) (not_lt.mp h1))

theorem stepClamp_bounds {b : Battery} {s : Strategy} {prev curr : ElectricityData}
    {c : ℚ} (h : stepClamp b s prev curr = some c) :
    -b.stored / b.efficiency ≤ c ∧ c ≤ (b.capacity - b.stored) / b.efficiency := by
  unfold stepClamp at h
  rw [Option.bind_eq_some] at h
  obtain ⟨c1, _, h2⟩ := h
  exact rustClamp_bounds h2

theorem stepClamp_inv {b : Battery} {s : Strategy} {prev curr : ElectricityData}
    {c : ℚ} (he : 0 < b.efficiency) (h : stepClamp b s prev curr = some c) :
    0 ≤ b.stored + c * b.efficiency ∧ b.stored + c * b.efficiency ≤ b.capacity := by
  obtain ⟨h1, h2⟩ := stepClamp_bounds h
  constructor
  · have := (div_le_iff₀ he).mp h1
    linarith
  · have := (le_div_iff₀ he).mp h2
    linarith

theorem accumulate_diff (rep : Report) (d : ℚ) :
    (accumulate rep d).total_import - (accumulate rep d).total_export =
      rep.total_import - rep.total_export + d := by
  unfold accumulate
  split_ifs <;> simp <;> ring

theorem accumulate_mono (rep : Report) (d : ℚ) :
    rep.total_import ≤ (accumulate rep d).total_import ∧
      rep.total_export ≤ (accumulate rep d).total_export := by
  unfold accumulate
  split_ifs with h
  · exact ⟨by simp; linarith, by simp⟩
  · exact ⟨by simp, by simp; linarith [not_lt.mp h]⟩

theorem accumulate_one (rep : Report) (d : ℚ) :
    (accumulate rep d).total_import = rep.total_import ∨
      (accumulate rep d).total_export = rep.total_export := by
  unfold accumulate
  split_ifs
  · exact Or.inr rfl
  · exact Or.inl rfl

theorem findStep_spec (t : ℚ) :
    ∀ (l : List ElectricityData) (i : ℕ) (c : ElectricityData),
      findStep t l = some (i, c) →
      l.get? i = some c ∧ t ≤ c.time ∧
        ∀ k d, k < i → l.get? k = some d → d.time < t := by
  intro l
  induction l with
  | nil => intro i c h; simp [findStep] at h
  | cons a rest ih =>
    intro i c h
    by_cases hat : t ≤ a.time
    · simp only [findStep, if_pos hat, Option.some.injEq, Prod.mk.injEq] at h
      obtain ⟨hi, hc⟩ := h
      subst hi; subst hc
      exact ⟨rfl, hat, fun k d hk _ => absurd hk (Nat.not_lt_zero k)⟩
    · simp only [findStep, if_neg hat] at h
      rw [Option.map_eq_some'] at h
      obtain ⟨⟨i', c'⟩, hf, heq⟩ := h
      simp only [Prod.mk.injEq] at heq
      obtain ⟨hi, hc⟩ := heq
      subst hi; subst hc
      obtain ⟨h1, h2, h3⟩ := ih i' c' hf
      refine ⟨by simpa using h1, h2, ?_⟩
      intro k d hk hd
      match k with
      | 0 =>
        simp only [List.get?_cons_zero, Option.some.injEq] at hd
        subst hd
        exact not_le.mp hat
      | k' + 1 =>
        exact h3 k' d (by omega) (by simpa using hd)

theorem findStep_none (t : ℚ) :
    ∀ (l : List ElectricityData), findStep t l = none →
      ∀ d ∈ l, d.time < t := by
  intro l
  induction l with
  | nil => intro _ d hd; simp at hd
  | cons a rest ih =>
    intro h d hd
    by_cases hat : t ≤ a.time
    · simp [findStep, if_pos hat] at h
    · simp only [findStep, if_neg hat, Option.map_eq_none'] at h
      rcases List.mem_cons.mp hd with hda | hdr
      · subst hda; exact not_le.mp hat
      · exact ih h d hdr

theorem findStep_cons_self (d : ElectricityData) (l : List ElectricityData) :
    findStep (d.time + 60) (d :: l) =
      (findStep (d.time + 60) l).map (fun p => (p.1 + 1, p.2)) := by
  have h : ¬ (d.time + 60 ≤ d.time) := by linarith
  simp [findStep, if_neg h]

theorem simHist_inv (b : Battery) (s : Strategy) (l : List ElectricityData)
    (he : 0 < b.efficiency) :
    ∀ x ∈ simHist b s l, 0 ≤ x.1.stored ∧ x.1.stored ≤ x.1.capacity := by
  induction b, s, l using simHist.induct with
  | case1 b s => simp [simHist]
  | case2 b s prev rest hfind =>
    intro x hx
    rw [simHist] at hx
    rw [hfind] at hx
    simp at hx
  | case3 b s prev rest j curr hfind hclamp =>
    intro x hx
    rw [simHist] at hx
    rw [hfind] at hx
    simp only [] at hx
    rw [hclamp] at hx
    simp at hx
  | case4 b s prev rest j curr hfind c hclamp ih =>
    intro x hx
    rw [simHist] at hx
    rw [hfind] at hx
    simp only [] at hx
    rw [hclamp] at hx
    simp only [List.mem_cons] at hx
    rcases hx with hx | hx
    · subst hx
      exact stepClamp_inv he hclamp
    · exact ih (by simpa using he) x hx

theorem simLoop_diff (b : Battery) (s : Strategy) (rep : Report)
    (l : List ElectricityData) :
    ∀ rep', simLoop b s rep l = some rep' →
      rep'.total_import - rep'.total_export =
        rep.total_import - rep.total_export +
          ((simHist b s l).map (fun x => x.2.1 + x.2.2)).sum := by
  induction b, s, rep, l using simLoop.induct with
  | case1 b s rep =>
    intro rep' h
    rw [simLoop] at h
    rw [Option.some.injEq] at h
    subst h
    simp [simHist]
  | case2 b s rep prev rest hfind =>
    intro rep' h
    rw [simLoop] at h
    rw [hfind] at h
    simp only [Option.some.injEq] at h
    subst h
    rw [simHist]
    rw [hfind]
    simp
  | case3 b s rep prev rest j curr hfind hclamp =>
    intro rep' h
    rw [simLoop] at h
    rw [hfind] at h
    simp only [] at h
    rw [hclamp] at h
    simp at h
  | case4 b s rep prev rest j curr hfind c hclamp ih =>
    intro rep' h
    rw [simLoop] at h
    rw [hfind] at h
    simp only [] at h
    rw [hclamp] at h
    have := ih rep' h
    rw [simHist]
    rw [hfind]
    simp only []
    rw [hclamp]
    simp only [List.map_cons, List.sum_cons]
    rw [this, accumulate_diff]
    ring

theorem simLoop_mono (b : Battery) (s : Strategy) (rep : Report)
    (l : List ElectricityData) :
    ∀ rep', simLoop b s rep l = some rep' →
      rep.total_import ≤ rep'.total_import ∧
        rep.total_export ≤ rep'.total_export := by
  induction b, s, rep, l using simLoop.induct with
  | case1 b s rep =>
    intro rep' h
    rw [simLoop] at h
    rw [Option.some.injEq] at h
    subst h
    exact ⟨le_refl _, le_refl _⟩
  | case2 b s rep prev rest hfind =>
    intro rep' h
    rw [simLoop] at h
    rw [hfind] at h
    simp only [Option.some.injEq] at h
    subst h
    exact ⟨le_refl _, le_refl _⟩
  | case3 b s rep prev rest j curr hfind hclamp =>
    intro rep' h
    rw [simLoop] at h
    rw [hfind] at h
    simp only [] at h
    rw [hclamp] at h
    simp at h
  | case4 b s rep prev rest j curr hfind c hclamp ih =>
    intro rep' h
    rw [simLoop] at h
    rw [hfind] at h
    simp only [] at h
    rw [hclamp] at h
    obtain ⟨ih1, ih2⟩ := ih rep' h
    obtain ⟨m1, m2⟩ := accumulate_mono rep
      (curr.kwh_balance - prev.kwh_balance + c)
    exact ⟨le_trans m1 ih1, le_trans m2 ih2⟩

theorem stepClamp_baseline (s : Strategy) (prev curr : ElectricityData) :
    stepClamp ⟨0, 0, 0, 0, 1⟩ s prev curr = some 0 := by
  unfold stepClamp
  simp only [neg_zero, zero_mul, rustClamp_zero, Option.some_bind, zero_div,
    zero_sub, sub_zero, div_one]

theorem simLoop_baseline (s : Strategy) (rep : Report)
    (l : List ElectricityData) :
    simLoop ⟨0, 0, 0, 0, 1⟩ s rep l = some (rawTotals rep l) := by
  induction rep, l using rawTotals.induct with
  | case1 rep =>
    rw [simLoop, rawTotals]
  | case2 rep prev rest hfind =>
    rw [simLoop, rawTotals]
    rw [hfind]
  | case3 rep prev rest j curr hfind ih =>
    rw [simLoop, rawTotals]
    rw [hfind]
    simp only []
    rw [stepClamp_baseline]
    simp only [add_zero, mul_one, zero_add]
    exact ih

/-- C1: for every input series and every battery configuration with
capacity ≥ 0, 0 ≤ initial stored ≤ capacity and 0 < efficiency ≤ 1, after
every mutation of the battery inside the simulation step loop (the single
`stored += clamped * efficiency` point, battery-sim/src/main.rs:389),
`0 ≤ stored ≤ capacity` holds exactly: the rate clamp followed by the
capacity clamp guarantees it algebraically, with no runtime check. -/
theorem battery_stored_invariant (b : Battery) (s : Strategy)
    (data : List ElectricityData) (hcap : 0 ≤ b.capacity)
    (hs0 : 0 ≤ b.stored) (hs1 : b.stored ≤ b.capacity)
    (he0 : 0 < b.efficiency) (he1 : b.efficiency ≤ 1) :
    ∀ x ∈ simHist b s data, 0 ≤ x.1.stored ∧ x.1.stored ≤ x.1.capacity :=
  simHist_inv b s data he0

/-- Witness for C1: the invariant evaluated at the concrete post-mutation
battery state of a concrete two-reading run of the battery `batW`. -/
theorem battery_stored_invariant_witness :
    0 ≤ ((batW, (1 : ℚ)/2, (0 : ℚ))).1.stored ∧
      ((batW, (1 : ℚ)/2, (0 : ℚ))).1.stored ≤
        ((batW, (1 : ℚ)/2, (0 : ℚ))).1.capacity :=
  battery_stored_invariant batW Strategy.netZero [dW0, dW1]
    (by norm_num [batW]) (by norm_num [batW]) (by norm_num [batW])
    (by norm_num [batW]) (by norm_num [batW]) (batW, 1/2, 0)
    (by norm_num [simHist, findStep, stepClamp, rustClamp,
      Strategy.charge_goal, ElectricityData.kwh_balance, dW0, dW1, batW])

/-- C2: for every non-empty input series, running the engine with the
degenerate battery of `main` (capacity = 0, stored = 0, zero rates,
efficiency = 1, battery-sim/src/main.rs:96-108) forces the clamped action
to zero at every step, so the resulting report exactly equals the totals
obtained by accumulating the raw series' `kwh_balance` deltas at 1-minute
resampling granularity (`rawTotals`, the spec-side reference). -/
theorem baseline_identity (s : Strategy) (data : List ElectricityData)
    (h : data ≠ []) :
    run_battery_sim ⟨0, 0, 0, 0, 1⟩ s data = some (rawTotals ⟨0, 0⟩ data) := by
  match data with
  | [] => exact absurd rfl h
  | d :: rest => exact simLoop_baseline s ⟨0, 0⟩ (d :: rest)

/-- Witness for C2: the baseline identity on a concrete two-reading series. -/
theorem baseline_identity_witness :
    run_battery_sim ⟨0, 0, 0, 0, 1⟩ Strategy.netZero [dW0, dW1] =
      some (rawTotals ⟨0, 0⟩ [dW0, dW1]) :=
  baseline_identity Strategy.netZero [dW0, dW1] (List.cons_ne_nil _ _)

/-- C3: in every simulation step `simulated_delta = real_delta + clamped`
(battery-sim/src/main.rs:391-392; the trace records the pair
(real_delta, clamped) per step), and over a full run the accumulated
`total_import - total_export` equals the sum of all per-step simulated
deltas. -/
theorem conservation_of_deltas (b : Battery) (s : Strategy)
    (data : List ElectricityData) (rep : Report)
    (h : run_battery_sim b s data = some rep) :
    rep.total_import - rep.total_export =
      ((simHist b s data).map (fun x => x.2.1 + x.2.2)).sum := by
  match data with
  | [] => simp [run_battery_sim] at h
  | d :: rest =>
    have h' : simLoop b s ⟨0, 0⟩ (d :: rest) = some rep := h
    have hd := simLoop_diff b s ⟨0, 0⟩ (d :: rest) rep h'
    simpa using hd

/-- Witness for C3: conservation evaluated on a concrete two-reading run. -/
theorem conservation_of_deltas_witness :
    (Report.mk (1/2) 0).total_import - (Report.mk (1/2) 0).total_export =
      ((simHist batW Strategy.netZero [dW0, dW1]).map
        (fun x => x.2.1 + x.2.2)).sum :=
  conservation_of_deltas batW Strategy.netZero [dW0, dW1] ⟨1/2, 0⟩ (by
    norm_num [run_battery_sim, simLoop, findStep, stepClamp, rustClamp,
      accumulate, Strategy.charge_goal, ElectricityData.kwh_balance,
      dW0, dW1, batW])

/-- Counterexample for C4: running the engine on an empty sequence does
not produce a zero-valued report — `let mut prev = &data_to_go[0]`
(battery-sim/src/main.rs:369) indexes an empty slice, a panic (`none`). -/
theorem empty_series_cex :
    run_battery_sim ⟨0, 0, 0, 0, 1⟩ Strategy.netZero [] = none := rfl

/-- C4 (amended): for every battery configuration and strategy, running the
simulation engine on an empty input sequence panics at the initial indexing
of the first element instead of returning a report; the caller (`main`,
battery-sim/src/main.rs:72-75) returns early when the loaded series is
empty, so the engine is never invoked on one. -/
theorem empty_series_amended (b : Battery) (s : Strategy) :
    run_battery_sim b s [] = none := rfl

/-- Counterexample for C5: with capacity = 0, stored = 0 and
efficiency = 0, the capacity-clamp bounds are `0.0 / 0.0`, which is NaN
under IEEE-754 f32, and Rust's `f32::clamp` panics when a bound is NaN
(its `assert!(min <= max)` fails) — the step does not complete, and the
bounds do not evaluate to 0. -/
theorem efficiency_zero_clamp_cex :
    capClampF (.finite 0) (.finite 0) (.finite 0) (.finite 0) = none := by
  norm_num [capClampF, rustClampF, fdiv, fneg, fsub, fle]

/-- C5 (amended): for a battery with capacity = 0 and stored = 0, the
capacity clamp completes and collapses every proposed action to zero for
every efficiency > 0 (the bounds `-stored / efficiency` and
`(capacity - stored) / efficiency` evaluate to 0); at efficiency = 0 the
bounds are `0.0 / 0.0` = NaN and Rust's clamp panics instead. -/
theorem degenerate_capacity_clamp_safe (e x : ℚ) (he : 0 < e) :
    capClampF (.finite 0) (.finite 0) (.finite e) (.finite x) =
      some (.finite 0) := by
  have he' : e ≠ 0 := ne_of_gt he
  rcases lt_trichotomy x 0 with hx | hx | hx
  · simp [capClampF, rustClampF, fdiv, fneg, fsub, fle, flt, he', hx]
  · subst hx
    simp [capClampF, rustClampF, fdiv, fneg, fsub, fle, flt, he']
  · simp [capClampF, rustClampF, fdiv, fneg, fsub, fle, flt, he',
      not_lt.mpr (le_of_lt hx), hx]

/-- Witness for C5 (amended): the capacity clamp at efficiency 1 on a
concrete proposed action. -/
theorem degenerate_capacity_clamp_safe_witness :
    capClampF (.finite 0) (.finite 0) (.finite 1) (.finite 5) =
      some (.finite 0) :=
  degenerate_capacity_clamp_safe 1 5 (by norm_num)

/-- C6: at each step the engine selects as `curr` the first reading at or
after `prev.time + 1 minute`, scanning forward from the cursor (the
remaining slice, whose head is `prev`): the found element is at the found
index, its time is at or after the threshold, every skipped reading is
sub-minute (so it never participates in a control decision), and when no
such reading exists the simulation terminates with the current report. -/
theorem advance_rule (b : Battery) (s : Strategy) (rep : Report)
    (prev : ElectricityData) (rest : List ElectricityData) :
    (∀ i curr, findStep (prev.time + 60) (prev :: rest) = some (i, curr) →
      (prev :: rest).get? i = some curr ∧ prev.time + 60 ≤ curr.time ∧
        ∀ k d, k < i → (prev :: rest).get? k = some d →
          d.time < prev.time + 60) ∧
    (findStep (prev.time + 60) (prev :: rest) = none →
      simLoop b s rep (prev :: rest) = some rep) := by
  constructor
  · intro i curr h
    exact findStep_spec _ _ i curr h
  · intro h
    rw [findStep_cons_self] at h
    rw [Option.map_eq_none'] at h
    rw [simLoop]
    rw [h]

/-- Witness for C6: the advance rule evaluated on a concrete series (a
one-minute step is found at index 1, the skipped reading at index 0 is
sub-minute; after the last reading no step is found and the loop returns
the current report). -/
theorem advance_rule_witness :
    (dW0 :: [dW1]).get? 1 = some dW1 ∧ dW0.time + 60 ≤ dW1.time ∧
      dW0.time < dW0.time + 60 ∧
      simLoop batW Strategy.netZero ⟨0, 0⟩ (dW1 :: []) = some ⟨0, 0⟩ :=
  ⟨((advance_rule batW Strategy.netZero ⟨0, 0⟩ dW0 [dW1]).1 1 dW1
      (by norm_num [findStep, dW0, dW1])).1,
    ((advance_rule batW Strategy.netZero ⟨0, 0⟩ dW0 [dW1]).1 1 dW1
      (by norm_num [findStep, dW0, dW1])).2.1,
    ((advance_rule batW Strategy.netZero ⟨0, 0⟩ dW0 [dW1]).1 1 dW1
      (by norm_num [findStep, dW0, dW1])).2.2 0 dW0 (by norm_num) rfl,
    (advance_rule batW Strategy.netZero ⟨0, 0⟩ dW1 []).2
      (by norm_num [findStep])⟩

/-- Counterexample for C7: a simulated delta of exactly zero is NOT
treated as the import branch — the source tests `simmed > 0.0`
(battery-sim/src/main.rs:394), which is false at zero, so zero takes the
`else` (export) branch (`accumulateBranch` is `true` exactly on the import
branch). -/
theorem zero_delta_branch_cex : accumulateBranch 0 = false := by decide

/-- C7 (amended): in every step, if `simulated_delta > 0` it is added to
`total_import`, otherwise its negation is added to `total_export`; exactly
one of the two accumulators is touched per step; a simulated delta of
exactly zero is treated as the export branch (the branch condition is
strictly `> 0`), a harmless tie-break since it adds zero either way. -/
theorem accumulate_dispatch (rep : Report) (q : ℚ) :
    (0 < q → accumulate rep q =
      { rep with total_import := rep.total_import + q }) ∧
    (q ≤ 0 → accumulate rep q =
      { rep with total_export := rep.total_export - q }) ∧
    accumulateBranch 0 = false := by
  refine ⟨fun h => ?_, fun h => ?_, by decide⟩
  · simp [accumulate, h]
  · simp [accumulate, not_lt.mpr h]

/-- Witness for C7 (amended): dispatch evaluated at a concrete positive
and a concrete negative delta. -/
theorem accumulate_dispatch_witness :
    accumulate ⟨1, 2⟩ 3 = ⟨1 + 3, 2⟩ ∧
      accumulate ⟨1, 2⟩ (-4) = ⟨1, 2 - (-4)⟩ :=
  ⟨(accumulate_dispatch ⟨1, 2⟩ 3).1 (by norm_num),
    (accumulate_dispatch ⟨1, 2⟩ (-4)).2.1 (by norm_num)⟩

/-- C8: `total_import` and `total_export` are each non-decreasing over the
course of a run (from any intermediate report onwards), and every
accumulation step adds a non-negative amount to exactly one of them,
leaving the other exactly unchanged. -/
theorem report_monotone (b : Battery) (s : Strategy) (rep : Report)
    (l : List ElectricityData) (rep' : Report)
    (h : simLoop b s rep l = some rep') (r : Report) (q : ℚ) :
    (rep.total_import ≤ rep'.total_import ∧
      rep.total_export ≤ rep'.total_export) ∧
    ((r.total_import ≤ (accumulate r q).total_import ∧
        r.total_export ≤ (accumulate r q).total_export) ∧
      ((accumulate r q).total_import = r.total_import ∨
        (accumulate r q).total_export = r.total_export)) :=
  ⟨simLoop_mono b s rep l rep' h, accumulate_mono r q, accumulate_one r q⟩

/-- Witness for C8: monotonicity on a concrete run plus a concrete negative
accumulation step. -/
theorem report_monotone_witness :
    ((Report.mk 0 0).total_import ≤ (Report.mk (1/2) 0).total_import ∧
      (Report.mk 0 0).total_export ≤ (Report.mk (1/2) 0).total_export) ∧
    (((Report.mk 5 7).total_import ≤ (accumulate ⟨5, 7⟩ (-3)).total_import ∧
        (Report.mk 5 7).total_export ≤
          (accumulate ⟨5, 7⟩ (-3)).total_export) ∧
      ((accumulate ⟨5, 7⟩ (-3)).total_import = (Report.mk 5 7).total_import ∨
        (accumulate ⟨5, 7⟩ (-3)).total_export =
          (Report.mk 5 7).total_export)) :=
  report_monotone batW Strategy.netZero ⟨0, 0⟩ [dW0, dW1] ⟨1/2, 0⟩ (by
      norm_num [simLoop, findStep, stepClamp, rustClamp, accumulate,
        Strategy.charge_goal, ElectricityData.kwh_balance, dW0, dW1, batW])
    ⟨5, 7⟩ (-3)

/-- Counterexample for C9: the series preparation of `main` sorts with
`rayon::par_sort_unstable_by_key` (battery-sim/src/main.rs:80), whose
contract is a sorted permutation with NO stability guarantee: here is a
concrete unsorted input with two distinct equal-timestamp records `eA`
before `eB`, and a legal preparation output (sorted permutation) in which
`eB` comes before `eA` — so records with equal timestamps are not
guaranteed to keep their relative input order. -/
theorem series_tie_order_cex :
    seriesPrepare [eA, eC, eB] [eC, eB, eA] ∧
      eA.time = eB.time ∧
      List.indexOf eA [eA, eC, eB] < List.indexOf eB [eA, eC, eB] ∧
      List.indexOf eB [eC, eB, eA] < List.indexOf eA [eC, eB, eA] := by
  refine ⟨?_, by decide, by decide, by decide⟩
  unfold seriesPrepare
  rw [if_neg (by decide)]
  exact ⟨by decide, by decide⟩

/-- C9 (amended): the series-preparation step produces a permutation of
the input ordered non-decreasingly by timestamp, and an already-ordered
input is left unreordered (so its equal-timestamp records trivially keep
their relative order); in the sorting path the sort is unstable and
equal-timestamp records may be reordered. -/
theorem series_prepare_contract (input output : List ElectricityData)
    (h : seriesPrepare input output) :
    sortedByTime output ∧ input.Perm output ∧
      (sortedByTime input → output = input) := by
  unfold seriesPrepare at h
  by_cases hs : sortedByTime input
  · rw [if_pos hs] at h
    subst h
    exact ⟨hs, List.Perm.refl _, fun _ => rfl⟩
  · rw [if_neg hs] at h
    exact ⟨h.2, h.1, fun hss => absurd hss hs⟩

/-- Witness for C9 (amended): the contract on a concrete already-sorted
input (the fast path). -/
theorem series_prepare_contract_witness :
    sortedByTime [eC, eA] ∧ List.Perm [eC, eA] [eC, eA] ∧
      [eC, eA] = [eC, eA] :=
  ⟨(series_prepare_contract [eC, eA] [eC, eA]
      (by unfold seriesPrepare; rw [if_pos (by decide)])).1,
    (series_prepare_contract [eC, eA] [eC, eA]
      (by unfold seriesPrepare; rw [if_pos (by decide)])).2.1,
    (series_prepare_contract [eC, eA] [eC, eA]
      (by unfold seriesPrepare; rw [if_pos (by decide)])).2.2 (by decide)⟩

/-- C10: the simulation loop terminates because each iteration's found
reading lies at a strictly positive index of the remaining slice (the
head is `prev`, whose timestamp can never be a minute past itself; the
found reading's timestamp is at least one minute after the head's), so
the re-sliced remaining sequence `&data_to_go[i..]` strictly shrinks on
every iteration — exactly the measure by which `simLoop` is well-founded. -/
theorem sim_loop_shrinks (prev : ElectricityData)
    (rest : List ElectricityData) (i : ℕ) (curr : ElectricityData)
    (h : findStep (prev.time + 60) (prev :: rest) = some (i, curr)) :
    1 ≤ i ∧ prev.time + 60 ≤ curr.time ∧
      (List.drop i (prev :: rest)).length < (prev :: rest).length := by
  rw [findStep_cons_self] at h
  rw [Option.map_eq_some'] at h
  obtain ⟨⟨j, c⟩, hf, heq⟩ := h
  simp only [Prod.mk.injEq] at heq
  obtain ⟨hi, hc⟩ := heq
  subst hi; subst hc
  refine ⟨by omega, (findStep_spec _ _ _ _ hf).2.1, ?_⟩
  simp only [List.length_drop, List.length_cons]
  omega

/-- Witness for C10: the shrink property on a concrete two-reading slice. -/
theorem sim_loop_shrinks_witness :
    1 ≤ 1 ∧ dW0.time + 60 ≤ dW1.time ∧
      (List.drop 1 (dW0 :: [dW1])).length < (dW0 :: [dW1]).length :=
  sim_loop_shrinks dW0 [dW1] 1 dW1 (by norm_num [findStep, dW0, dW1])
